import Mathlib

/-!
A verification development for the Georznab acquisition orchestrator
(`server/rss/builder.py` and its collaborators).  The Python source is
shallowly embedded: dictionaries holding search candidates become
structures, in-place dict mutation becomes construction of new records,
Python numbers become `Int`/`Nat`/`ℚ` with exact arithmetic, and the
insertion-ordered `dict` used by the publish step becomes an association
list with in-place update.  Timestamps (ISO-8601 strings in the source)
are modelled as integer epoch seconds; a day is 86400 seconds.
-/

namespace Georznab

/-! ## String helpers (Python `in`, slicing, and the one regex the scorer uses) -/

/-- Is `p` a prefix of `s` (on character lists)? -/
def lpre : List Char → List Char → Bool
  | [], _ => true
  | _ :: _, [] => false
  | a :: as, b :: bs => (a == b) && lpre as bs

/-- Is `p` a contiguous sublist of `s`?  Models Python `p in s` on strings. -/
def lsub (p : List Char) : List Char → Bool
  | [] => lpre p []
  | c :: rest => lpre p (c :: rest) || lsub p rest

/-- Python `pat in s` (substring containment). -/
def strHas (s pat : String) : Bool := lsub pat.toList s.toList

/-- Python `s[:n]` on strings; models the part of a file written so far. -/
def strTake (s : String) (n : Nat) : String := ⟨s.toList.take n⟩

/-!
## Data model

`Candidate` is one raw hit from the qBittorrent search API (`builder.py`
reads exactly these keys).  `ScoredCalc` is the candidate dict after
`optimize_results` has stamped its derived fields; `Scored` is the same
record after the six scratch booleans have been popped (this is what the
publish step persists).
-/

structure Candidate where
  fileName : String
  fileSize : Int
  nbSeeders : Nat
  nbLeechers : Nat
  pubDate : Int
  engineName : String
  fileUrl : String
  descrLink : String
  siteUrl : String
deriving Repr, DecidableEq

structure Scored where
  fileName : String
  fileSize : Int
  nbSeeders : Nat
  nbLeechers : Nat
  pubDate : Int
  engineName : String
  fileUrl : String
  descrLink : String
  siteUrl : String
  jackett : Option String
  tags : String
  lastAdded : Option Int
  fileSizeMB : ℚ
  category : String
  score : Nat
deriving Repr, DecidableEq

structure ScoredCalc where
  toScored : Scored
  seeds10 : Bool
  seeds50 : Bool
  quality : Bool
  favorite : Bool
  sizeMin : Bool
  sizeBest : Bool
deriving Repr, DecidableEq

/-- The two library kinds `run_for_library` is invoked with. -/
inductive LibType where
  | Movies
  | TV
deriving Repr, DecidableEq

/-- A wanted episode record (the fields `builder.py` reads). -/
structure Episode where
  id : Nat
  seasonNumber : Nat
  episodeNumber : Nat
  runtime : Option Nat
deriving Repr, DecidableEq

/-- A wanted movie record (the fields `builder.py` reads). -/
structure MovieRec where
  id : Nat
  title : String
  year : Int
  runtime : Option Nat
  imdbId : Option String
  genres : List String
deriving Repr, DecidableEq

/-- The `request` payload a search request carries: the originating movie
record, or the ordered list of episodes the request covers. -/
inductive RequestObj where
  | movie (rec : MovieRec)
  | eps (l : List Episode)
deriving Repr, DecidableEq

/-- The `meta` dict stamped onto results. -/
inductive Meta where
  | movies (imdbid : Option String) (genres : List String)
  | tv (tvdbid : Int) (season : Nat) (ep : Nat)
deriving Repr, DecidableEq

/-- One entry of `search_requests` in `run_for_library`. -/
structure SearchReq where
  string : String
  matchPat : Option String
  ignorePat : Option String
  request : RequestObj
  meta : Meta
deriving Repr, DecidableEq

/-! ## Scoring (`optimize_results`) -/

/-- Python `v or d` for an optional int field: `None` and `0` both fall to `d`. -/
def pyOrNat (v : Option Nat) (d : Nat) : Nat :=
  match v with
  | none => d
  | some 0 => d
  | some n => n

/-- `QBitClient.get_tracker_tag`: dict lookup with default `""`. -/
def getTrackerTag (trackers : List (String × String)) (name : String) : String :=
  match trackers.find? (fun p => decide (p.1 = name)) with
  | some p => p.2
  | none => ""

/-- The regex `^\[([^\]]+)\] ` applied to a file name: on a match, the
captured indexer name and the rest of the name after the bracket. -/
def jackettSplit (s : String) : Option (String × String) :=
  match s.toList with
  | '[' :: rest =>
    let inner := rest.takeWhile (fun c => !(c == ']'))
    match rest.drop inner.length with
    | ']' :: ' ' :: tail => if inner.isEmpty then none else some (⟨inner⟩, ⟨tail⟩)
    | _ => none
  | _ => none

/-- `max((r.get("nbSeeders", 0) for r in results), default=0) or 1`. -/
def maxSeeders (results : List Candidate) : Nat :=
  let M := results.foldl (fun a r => max a r.nbSeeders) 0
  if M = 0 then 1 else M

/-- The runtime used by `optimize_results`: a movie's own runtime (default
100), or the sum of the covered episodes' runtimes (default 20 each). -/
def runtimeOf : LibType → RequestObj → Nat
  | LibType.Movies, RequestObj.movie rec => pyOrNat rec.runtime 100
  | LibType.TV, RequestObj.eps l => (l.map (fun ep => pyOrNat ep.runtime 20)).sum
  | LibType.TV, RequestObj.movie rec => pyOrNat rec.runtime 20
  -- The source would raise here (`.get` on a list); `run_for_library` only
  -- ever pairs Movies with a movie record, so this shape is unreachable.
  | LibType.Movies, RequestObj.eps _ => 100

/-- `float(r.get("fileSize", 0) or 1) / (1024 ** 2)`: the raw size in
megabytes (a size of 0 falls back to 1 byte). -/
def mbOf (fileSize : Int) : ℚ :=
  ((if fileSize = 0 then 1 else fileSize : Int) : ℚ) / (1024 ^ 2)

/-- Per-kind score weights (`weights` in `optimize_results`). -/
structure Weights where
  seeds10 : Nat
  sizeBest : Nat
  favorite : Nat
  seeds50 : Nat
  quality : Nat

def weightsOf : LibType → Weights
  | LibType.Movies => ⟨7, 5, 3, 2, 1⟩
  | LibType.TV => ⟨7, 5, 1, 3, 2⟩

/-- The body of the `for r in results` loop of `optimize_results`: stamp
tags/lastAdded, compute the size and seed heuristics, the category and
the score for one candidate. -/
def scoreOne (trackers : List (String × String)) (now : Int) (typeName : LibType)
    (runtime : Nat) (maxS : Nat) (c : Candidate) : ScoredCalc :=
  let baseTags := getTrackerTag trackers c.engineName
  let split := if c.engineName = "jackett" && strHas c.fileName "] "
    then jackettSplit c.fileName else none
  let fileName := match split with | some p => p.2 | none => c.fileName
  let jackett := match split with | some p => some p.1 | none => none
  let tags := match split with | some p => getTrackerTag trackers p.1 | none => baseTags
  let mb := mbOf c.fileSize
  -- `quality` reads the local `file_name` bound before the jackett rename,
  -- i.e. the original file name.
  let seeds10 := decide ((c.nbSeeders : ℚ) ≥ (1 / 10) * (maxS : ℚ))
  let seeds50 := decide ((c.nbSeeders : ℚ) ≥ (1 / 2) * (maxS : ℚ))
  let quality := strHas c.fileName "1080p" || strHas c.fileName "2160p"
  let favorite := decide (c.siteUrl = "https://torrents-csv.com")
  let sizeMin := decide ((10 * runtime : ℚ) ≤ mb ∧ mb ≤ (60 * runtime : ℚ))
  let sizeBest := decide ((25 * runtime : ℚ) ≤ mb ∧ mb ≤ (40 * runtime : ℚ))
  let category := match typeName with
    | LibType.Movies =>
      if mb < (25 * runtime : ℚ) then "SD"
      else if mb < (60 * runtime : ℚ) then "HD"
      else "UHD"
    | LibType.TV =>
      if mb < (25 * runtime : ℚ) then "WEB-DL"
      else if mb < (40 * runtime : ℚ) then "SD"
      else if mb < (60 * runtime : ℚ) then "HD"
      else "UHD"
  let w := weightsOf typeName
  let score := (if seeds10 then w.seeds10 else 0) + (if sizeBest then w.sizeBest else 0)
    + (if favorite then w.favorite else 0) + (if seeds50 then w.seeds50 else 0)
    + (if quality then w.quality else 0)
  ⟨⟨fileName, c.fileSize, c.nbSeeders, c.nbLeechers, c.pubDate, c.engineName,
    c.fileUrl, c.descrLink, c.siteUrl, jackett, tags, some now, mb, category, score⟩,
    seeds10, seeds50, quality, favorite, sizeMin, sizeBest⟩

/-- `r.get("pubDate") or ""`: the secondary sort key; `0` (falsy) becomes
the always-lowest empty value. -/
def pubKey (r : ScoredCalc) : Option Int :=
  if r.toScored.pubDate = 0 then none else some r.toScored.pubDate

/-- Comparison on the secondary key: the empty value sorts lowest. -/
def pubLe : Option Int → Option Int → Bool
  | none, _ => true
  | some _, none => false
  | some a, some b => decide (a ≤ b)

/-- `key y ≥ key x` for the sort key `(score, pubDate or "")`. -/
def keyGE (y x : ScoredCalc) : Bool :=
  decide (x.toScored.score < y.toScored.score)
    || (decide (x.toScored.score = y.toScored.score) && pubLe (pubKey x) (pubKey y))

/-- Stable insertion for descending-by-key order. -/
def insDesc (x : ScoredCalc) : List ScoredCalc → List ScoredCalc
  | [] => [x]
  | y :: ys => if keyGE y x then y :: insDesc x ys else x :: y :: ys

/-- `filtered.sort(key=..., reverse=True)`: stable descending sort. -/
def sortDesc (l : List ScoredCalc) : List ScoredCalc :=
  l.foldl (fun acc x => insDesc x acc) []

/-- Drop the scratch fields popped at the end of `optimize_results`. -/
def dropCalc (r : ScoredCalc) : Scored := r.toScored

/-- `optimize_results(results, type_name, request_obj)`. -/
def optimize_results (trackers : List (String × String)) (now : Int)
    (results : List Candidate) (typeName : LibType) (requestObj : RequestObj) :
    List Scored :=
  let maxS := maxSeeders results
  let runtime := runtimeOf typeName requestObj
  let scored := results.map (scoreOne trackers now typeName runtime maxS)
  let filtered := scored.filter (fun r => decide (r.toScored.score > 5) && r.sizeMin)
  (sortDesc filtered).map dropCalc

/-! ## The filtering step of `run_for_library` -/

/-- The per-candidate filter in `run_for_library`; `research pat s` stands
for `bool(re.search(pat, s))` of Python's regex engine. -/
def filterResults (research : String → String → Bool)
    (matchPat ignorePat : Option String) (results : List Candidate) :
    List Candidate :=
  results.filter fun r =>
    let nameStr := r.fileName
    let matched := match matchPat with
      | none => true
      | some p => decide (p ≠ "") && (strHas nameStr p || research p nameStr)
    let ignored := match ignorePat with
      | none => false
      | some p => decide (p ≠ "") && research p nameStr
    let errored := decide (r.fileSize = -1)
    matched && !ignored && !errored

/-! ## Request planning (`run_for_library`) -/

/-- Python `f"{n:02d}"`. -/
def pad2 (n : Nat) : String := if n < 10 then "0" ++ toString n else toString n

/-- A queue record (`/api/v3/queue`); movie and episode queues share the shape. -/
structure QueueRec where
  movieId : Option Nat
  episodeId : Option Nat
  status : String
deriving Repr, DecidableEq

/-- The movie branch of the planning pass: skip wanted items queued with a
non-completed status, emit one request per remaining movie. -/
def planMovies (wanted : List MovieRec) (queued : List QueueRec) : List SearchReq :=
  wanted.filterMap fun rec =>
    if queued ≠ [] ∧
        (some rec.id) ∈ ((queued.filter (fun q => q.status ≠ "completed")).map (·.movieId)) then
      none
    else
      some ⟨rec.title ++ " " ++ toString rec.year, some (toString rec.year), none,
        RequestObj.movie rec, Meta.movies rec.imdbId rec.genres⟩

/-- One season's statistics as returned by `get_video` for a series. -/
structure SeasonInfo where
  seasonNumber : Nat
  totalEpisodeCount : Option Nat
deriving Repr, DecidableEq

/-- `next((s for s in seasons if s.seasonNumber == n), None)` followed by
`.get("statistics", {}).get("totalEpisodeCount") or 0`. -/
def totalEpsFor (seasons : List SeasonInfo) (n : Nat) : Nat :=
  match seasons.find? (fun s => decide (s.seasonNumber = n)) with
  | some s => (s.totalEpisodeCount).getD 0
  | none => 0

/-- The per-season part of the TV planning pass (`run_for_library`,
season-pack vs per-episode grouping) for one season's missing episodes. -/
def planSeason (sortTitle : String) (tvdbId : Int) (seasonNum : Nat)
    (totalEps : Nat) (eps : List Episode) : List SearchReq :=
  if totalEps ≠ 0 ∧ totalEps = eps.length then
    [⟨sortTitle ++ " S" ++ pad2 seasonNum,
      some ("(S" ++ pad2 seasonNum ++ "|Season 0?" ++ toString seasonNum ++ ")"),
      some "E\\d\x7b2,3\x7d\\D",
      RequestObj.eps eps,
      Meta.tv tvdbId seasonNum 0⟩]
  else
    eps.map fun ep =>
      ⟨sortTitle ++ " S" ++ pad2 ep.seasonNumber ++ "E" ++ pad2 ep.episodeNumber,
        some ("S" ++ pad2 ep.seasonNumber ++ "E" ++ pad2 ep.episodeNumber),
        none,
        RequestObj.eps [ep],
        Meta.tv tvdbId ep.seasonNumber ep.episodeNumber⟩

/-! ## Retention merge and publish (`publish_results`) -/

/-- `IsoTimeFormatter().subtract_days(days)` against an epoch-seconds clock. -/
def subtract_days (now : Int) (days : Int) : Int := now - 86400 * days

/-- `IsoTimeFormatter(item.get("lastAdded"))`: a missing or unparsable
timestamp falls back to the current time. -/
def effLastAdded (now : Int) (r : Scored) : Int := r.lastAdded.getD now

/-- `recent[r["descrLink"]] = r` on an insertion-ordered dict: replace in
place if the key exists, else append. -/
def ins (m : List Scored) (r : Scored) : List Scored :=
  if m.any (fun x => decide (x.descrLink = r.descrLink)) then
    m.map (fun x => if x.descrLink = r.descrLink then r else x)
  else
    m ++ [r]

/-- `publish_results` without the file I/O: keep existing records whose
last-added time is at or after the cutoff, then overlay the new results
by `descrLink` (last write wins); the value list of the resulting dict. -/
def publish_results (existing results : List Scored) (now retentionDays : Int) :
    List Scored :=
  let cutoff := subtract_days now retentionDays
  let recent := (existing.filter (fun it => decide (cutoff ≤ effLastAdded now it))).foldl ins []
  results.foldl ins recent

/-- Modelled from the spec: "merge(R1,R2) with last-write-wins" keyed by
the unique key (descrLink) — the dict built from R1 then R2. -/
def mergeLWW (r1 r2 : List Scored) : List Scored := (r1 ++ r2).foldl ins []

/-- The key list of the dict. -/
def keys (l : List Scored) : List String := l.map (·.descrLink)

/-- A dict list holds at most one record per key. -/
def nodupKeys (l : List Scored) : Prop := (keys l).Nodup

/-- The value the dict binds to a key (the first — with `nodupKeys`, the
only — record with that key). -/
def findKey (k : String) (l : List Scored) : Option Scored :=
  l.find? (fun x => decide (x.descrLink = k))

/-- Adding one key to a first-occurrence key list. -/
def insKey (ks : List String) (k : String) : List String :=
  if k ∈ ks then ks else ks ++ [k]

/-- The key list obtained after inserting the keys `xs` into a dict whose
key list is `ks`. -/
def keyFold (ks : List String) (xs : List String) : List String :=
  xs.foldl insKey ks

/-- The last record with key `k` among `X`, defaulting to `acc`. -/
def writeFold (k : String) (X : List Scored) (acc : Option Scored) : Option Scored :=
  X.foldl (fun acc r => if r.descrLink = k then some r else acc) acc

/-! ## The store file write (`save_json`)

`save_json` opens the path with mode `"w"` — truncating the file — and
then streams the serialized document into it.  `save_json_states` lists
the contents an observer (or a crashed run) can see on disk: the previous
content before the `open`, then every prefix of the new content, the empty
string (just after truncation) and the complete document included. -/

def save_json_states (oldContent newContent : String) : List String :=
  oldContent :: (List.range (newContent.length + 1)).map (fun i => strTake newContent i)

/-- An abridged rendering of `json.dump` for a published record; the
atomicity analysis only needs that a store serializes to a single
nonempty document. -/
def dumpRec (r : Scored) : String :=
  "\x7b\"fileName\": \"" ++ r.fileName ++ "\", \"descrLink\": \"" ++ r.descrLink
    ++ "\", \"score\": " ++ toString r.score ++ "\x7d"

/-- The store document `save_json` writes for a record list. -/
def dumpStore (rs : List Scored) : String :=
  "[" ++ String.intercalate ", " (rs.map dumpRec) ++ "]"

/-- The on-disk states of the store file during a publish that merges
`results` into `existing` and rewrites the file in place. -/
def publishCrashStates (existing results : List Scored) (now retentionDays : Int) :
    List String :=
  save_json_states (dumpStore existing)
    (dumpStore (publish_results existing results now retentionDays))

/-! ## The webhook handler (`routers/webhook.py`)

The TV branch builds `external_id` with
`f"{tvdb_id}:{requested_seasons.join(',')}"` where `requested_seasons`
is a Python `list`.  Attribute lookup and the dynamically-typed `join`
call are embedded explicitly: `join` is a method of `str` only, so the
call on a list raises `AttributeError`. -/

inductive PyVal where
  | str (s : String)
  | int (n : Int)
  | list (l : List PyVal)
deriving Repr

/-- `recv.join(sep)` under Python semantics: defined on strings, an
`AttributeError` on every other receiver. -/
def pyCallJoin (recv : PyVal) (sep : String) : Except String String :=
  match recv with
  | PyVal.str s => Except.ok (String.intercalate s ((sep.toList).map (fun c => String.mk [c])))
  | PyVal.list _ => Except.error "AttributeError: 'list' object has no attribute 'join'"
  | PyVal.int _ => Except.error "AttributeError: 'int' object has no attribute 'join'"

/-- Lines 104-113 of the webhook handler: collect the "Requested Seasons"
extra values, then build the external id handed to the background run. -/
def buildExternalId (tvdbId : Int) (extra : List (String × List PyVal)) :
    Except String String :=
  let requestedSeasons :=
    extra.foldl (fun acc item => if item.1 = "Requested Seasons" then acc ++ item.2 else acc) []
  match requestedSeasons with
  | [] => Except.ok (toString tvdbId)
  | _ :: _ =>
    match pyCallJoin (PyVal.list requestedSeasons) "," with
    | Except.ok j => Except.ok (toString tvdbId ++ ":" ++ j)
    | Except.error e => Except.error e

/-! ## `parse_args` and `main` -/

/-- The namespace produced by `parse_args` (one field per `add_argument`). -/
structure Args where
  name : String
  external : Option String
  publish : String
  retention : Int
  qbit : Bool
  config : Option String
  whatif : Bool
  noninteractive : Bool
  log : Bool
deriving Repr, DecidableEq

/-- The defaults `parse_args` assigns when a flag is absent. -/
def parse_args_defaults : Args :=
  ⟨"Both", none, "/app/data/torrents.json", 365, false, none, false, false, false⟩

/-- The argument tuple `main` passes to one `run_for_library` call. -/
structure LibRun where
  name : String
  configPath : Option String
  publishPath : String
  retentionDays : Int
  doQbit : Bool
  whatif : Bool
deriving Repr, DecidableEq

/-- The `run_for_library` invocations `main` makes for a parsed argument set. -/
def mainRuns (args : Args) : List LibRun :=
  if args.name = "Both" then
    [⟨"Movies", args.config, args.publish, args.retention, args.qbit, args.whatif⟩,
     ⟨"TV", args.config, args.publish, args.retention, args.qbit, args.whatif⟩]
  else
    [⟨args.name, args.config, args.publish, args.retention, args.qbit, args.whatif⟩]

/-- Run the planned invocations in order against an environment `step`
(every external effect of one `run_for_library` call, as a function of
its arguments and the store); the first exception stops the run and
`main` returns 1, otherwise 0. -/
def runSeq (step : LibRun → List Scored → Except String (List Scored)) :
    List LibRun → List Scored → List Scored × Int
  | [], store => (store, 0)
  | r :: rs, store =>
    match step r store with
    | Except.ok store' => runSeq step rs store'
    | Except.error _ => (store, 1)

/-- `main(argv)` after argument parsing: the published store and the exit
code, as a function of the parsed arguments and the environment. -/
def mainResult (step : LibRun → List Scored → Except String (List Scored))
    (initialStore : List Scored) (args : Args) : List Scored × Int :=
  runSeq step (mainRuns args) initialStore

/-! ## Concrete records used by the instance theorems -/

/-- The wanted movie of the end-to-end example. -/
def alphaRec : MovieRec := ⟨1, "Alpha", 2020, some 100, none, []⟩

/-- The candidate of the end-to-end example. -/
def alphaCand : Candidate :=
  ⟨"Alpha.2020.1080p", 30 * 100 * 1024 * 1024, 50, 0, 0, "eng", "u", "d", ""⟩

/-- A published record with a given unique key and last-added time. -/
def mkRec (link : String) (t : Option Int) : Scored :=
  ⟨"f", 0, 0, 0, 0, "", "", link, "", none, "", t, 0, "", 0⟩

/-- What the scorer produces for `alphaCand` under the `alphaRec` request. -/
def alphaScored : ScoredCalc :=
  ⟨⟨"Alpha.2020.1080p", 3145728000, 50, 0, 0, "eng", "u", "d", "", none, "",
    some 0, 3000, "HD", 15⟩, true, true, true, false, true, true⟩

/-! ## Lemmas about the sort step -/

theorem mem_insDesc {y x : ScoredCalc} {l : List ScoredCalc} :
    y ∈ insDesc x l ↔ y = x ∨ y ∈ l := by
  induction l with
  | nil => simp [insDesc]
  | cons z zs ih =>
    by_cases h : keyGE z x = true
    · simp only [insDesc, h, if_true, List.mem_cons, ih]
      tauto
    · simp [insDesc, h]

theorem mem_sortDesc_fold {y : ScoredCalc} {l acc : List ScoredCalc} :
    y ∈ l.foldl (fun acc x => insDesc x acc) acc ↔ y ∈ acc ∨ y ∈ l := by
  induction l generalizing acc with
  | nil => simp
  | cons z zs ih =>
    rw [List.foldl_cons, ih, mem_insDesc]
    simp
    tauto

theorem mem_sortDesc {y : ScoredCalc} {l : List ScoredCalc} :
    y ∈ sortDesc l ↔ y ∈ l := by
  rw [sortDesc, mem_sortDesc_fold]
  simp

/-! ## Lemmas about the scorer -/

theorem scoreOne_fileSize (trackers : List (String × String)) (now : Int)
    (t : LibType) (rt maxS : Nat) (c : Candidate) :
    (scoreOne trackers now t rt maxS c).toScored.fileSize = c.fileSize := rfl

theorem scoreOne_fileSizeMB (trackers : List (String × String)) (now : Int)
    (t : LibType) (rt maxS : Nat) (c : Candidate) :
    (scoreOne trackers now t rt maxS c).toScored.fileSizeMB = mbOf c.fileSize := rfl

theorem mem_optimize (trackers : List (String × String)) (now : Int)
    (results : List Candidate) (t : LibType) (ro : RequestObj) {r : Scored}
    (h : r ∈ optimize_results trackers now results t ro) :
    ∃ c ∈ results,
      r = (scoreOne trackers now t (runtimeOf t ro) (maxSeeders results) c).toScored := by
  unfold optimize_results at h
  obtain ⟨sc, hsc, rfl⟩ := List.mem_map.mp h
  have hmem := mem_sortDesc.mp hsc
  have := List.mem_filter.mp hmem
  obtain ⟨c, hc, rfl⟩ := List.mem_map.mp this.1
  exact ⟨c, hc, rfl⟩

/-! ## Claim theorems (planner, filter, end-to-end instance) -/

/-- C5: for one season of the TV planning pass, a nonzero known total
episode count equal to the number of missing episodes yields exactly one
season-pack request (query "title SNN", match a disjunction of the
zero-padded season token and a "Season N" token, ignore a zero-padded
episode token); any other season — a zero total included — yields one
request per missing episode with the exact episode token as match and
no ignore pattern, so 10 missing of 10 gives 1 request and 10 of 12
gives 10. -/
theorem C5_seasonGrouping (sortTitle : String) (tvdbId : Int)
    (seasonNum totalEps : Nat) (eps : List Episode) :
    planSeason sortTitle tvdbId seasonNum totalEps eps =
      (if totalEps ≠ 0 ∧ eps.length = totalEps then
        [⟨sortTitle ++ " S" ++ pad2 seasonNum,
          some ("(S" ++ pad2 seasonNum ++ "|Season 0?" ++ toString seasonNum ++ ")"),
          some "E\\d\x7b2,3\x7d\\D",
          RequestObj.eps eps,
          Meta.tv tvdbId seasonNum 0⟩]
      else
        eps.map fun ep =>
          ⟨sortTitle ++ " S" ++ pad2 ep.seasonNumber ++ "E" ++ pad2 ep.episodeNumber,
            some ("S" ++ pad2 ep.seasonNumber ++ "E" ++ pad2 ep.episodeNumber),
            none,
            RequestObj.eps [ep],
            Meta.tv tvdbId ep.seasonNumber ep.episodeNumber⟩)
    ∧ (planSeason sortTitle tvdbId seasonNum totalEps eps).length =
        (if totalEps ≠ 0 ∧ eps.length = totalEps then 1 else eps.length) := by
  constructor
  · unfold planSeason
    by_cases h : totalEps ≠ 0 ∧ totalEps = eps.length
    · rw [if_pos h, if_pos ⟨h.1, h.2.symm⟩]
    · rw [if_neg h, if_neg (fun hc => h ⟨hc.1, hc.2.symm⟩)]
  · unfold planSeason
    by_cases h : totalEps ≠ 0 ∧ totalEps = eps.length
    · rw [if_pos h, if_pos ⟨h.1, h.2.symm⟩]
      rfl
    · rw [if_neg h, if_neg (fun hc => h ⟨hc.1, hc.2.symm⟩)]
      exact List.length_map eps _

/-- C6: a candidate whose file size is the sentinel -1 is dropped by the
filter of `run_for_library` for every match/ignore pattern and every
regex engine, and hence also never appears among the scored results. -/
theorem C6_sentinel_excluded (research : String → String → Bool)
    (matchPat ignorePat : Option String) (results : List Candidate)
    (trackers : List (String × String)) (now : Int) (t : LibType) (ro : RequestObj) :
    (filterResults research matchPat ignorePat results).all
        (fun r => decide (r.fileSize ≠ -1)) = true
    ∧ (optimize_results trackers now (filterResults research matchPat ignorePat results)
        t ro).all (fun r => decide (r.fileSize ≠ -1)) = true := by
  have hfilter : ∀ r ∈ filterResults research matchPat ignorePat results,
      r.fileSize ≠ -1 := by
    intro r hr
    have hcond := (List.mem_filter.mp hr).2
    simp only [Bool.and_eq_true, Bool.not_eq_true', decide_eq_false_iff_not] at hcond
    exact hcond.2
  constructor
  · simp only [List.all_eq_true, decide_eq_true_eq]
    exact hfilter
  · simp only [List.all_eq_true, decide_eq_true_eq]
    intro r hr
    obtain ⟨c, hc, rfl⟩ := mem_optimize _ _ _ _ _ hr
    rw [scoreOne_fileSize]
    exact hfilter c hc

/-- C9: the season-joining construction of the TV webhook branch calls
`join` on a Python list, which raises `AttributeError`; no payload with a
nonempty "Requested Seasons" list reaches the background request with a
colon-and-comma external id. -/
theorem C9_seasonJoin_raises :
    buildExternalId 123 [("Requested Seasons", [PyVal.int 1, PyVal.int 2])] =
      Except.error "AttributeError: 'list' object has no attribute 'join'"
    ∧ ∀ (tvdbId : Int) (v : PyVal) (vs : List PyVal),
        buildExternalId tvdbId [("Requested Seasons", v :: vs)] =
          Except.error "AttributeError: 'list' object has no attribute 'join'" := by
  constructor
  · rfl
  · intro tvdbId v vs
    rfl

theorem filter_singleton_pass (research : String → String → Bool) (p : String)
    (hp : p ≠ "") (r : Candidate) (h1 : strHas r.fileName p = true)
    (h2 : r.fileSize ≠ -1) :
    filterResults research (some p) none [r] = [r] := by
  unfold filterResults
  simp [h1, h2, hp]

theorem scoreOne_alpha :
    scoreOne [] 0 LibType.Movies
      (runtimeOf LibType.Movies (RequestObj.movie alphaRec))
      (maxSeeders [alphaCand]) alphaCand = alphaScored := by
  rw [show runtimeOf LibType.Movies (RequestObj.movie alphaRec) = 100 from by decide,
    show maxSeeders [alphaCand] = 50 from by decide]
  unfold scoreOne
  norm_num [alphaCand, mbOf, getTrackerTag, weightsOf]
  decide

theorem optimize_alpha :
    optimize_results [] 0 [alphaCand] LibType.Movies (RequestObj.movie alphaRec) =
      [alphaScored.toScored] := by
  unfold optimize_results
  simp only [List.map]
  rw [scoreOne_alpha]
  decide

/-- C7: the movie item {title "Alpha", year 2020, runtime 100} plans the
query "Alpha 2020" with match pattern "2020"; the candidate
{fileName "Alpha.2020.1080p", fileSize 30*100 MiB, nbSeeders 50} scored
against a request maximum of 50 seeders has highSeedRatio (seeds_10),
midSeedRatio (seeds_50), qualityMarker, sizeWindowMin and sizeWindowBest
all true and category "HD", and it passes the final selection (score > 5
with the size gate) for every regex engine. -/
theorem C7_endToEnd :
    (planMovies [alphaRec] []).map (fun s => (s.string, s.matchPat)) =
      [("Alpha 2020", some "2020")]
    ∧ ((scoreOne [] 0 LibType.Movies
          (runtimeOf LibType.Movies (RequestObj.movie alphaRec))
          (maxSeeders [alphaCand]) alphaCand).seeds10 = true
      ∧ (scoreOne [] 0 LibType.Movies
          (runtimeOf LibType.Movies (RequestObj.movie alphaRec))
          (maxSeeders [alphaCand]) alphaCand).seeds50 = true
      ∧ (scoreOne [] 0 LibType.Movies
          (runtimeOf LibType.Movies (RequestObj.movie alphaRec))
          (maxSeeders [alphaCand]) alphaCand).quality = true
      ∧ (scoreOne [] 0 LibType.Movies
          (runtimeOf LibType.Movies (RequestObj.movie alphaRec))
          (maxSeeders [alphaCand]) alphaCand).sizeMin = true
      ∧ (scoreOne [] 0 LibType.Movies
          (runtimeOf LibType.Movies (RequestObj.movie alphaRec))
          (maxSeeders [alphaCand]) alphaCand).sizeBest = true
      ∧ (scoreOne [] 0 LibType.Movies
          (runtimeOf LibType.Movies (RequestObj.movie alphaRec))
          (maxSeeders [alphaCand]) alphaCand).toScored.category = "HD"
      ∧ 5 < (scoreOne [] 0 LibType.Movies
          (runtimeOf LibType.Movies (RequestObj.movie alphaRec))
          (maxSeeders [alphaCand]) alphaCand).toScored.score)
    ∧ ∀ research : String → String → Bool,
        (optimize_results [] 0 (filterResults research (some "2020") none [alphaCand])
          LibType.Movies (RequestObj.movie alphaRec)).length = 1 := by
  refine ⟨by decide, ?_, ?_⟩
  · rw [scoreOne_alpha]
    refine ⟨rfl, rfl, rfl, rfl, rfl, rfl, by decide⟩
  · intro research
    rw [filter_singleton_pass research "2020" (by decide) alphaCand (by decide) (by decide),
      optimize_alpha]
    rfl

/-- C1 counterexample: for the end-to-end candidate the persisted
`fileSizeMB` field is 3000 (raw megabytes), not
fileSize/(1024*1024)/runtimeMinutes = 30. -/
theorem C1_counterexample :
    ∃ r ∈ optimize_results [] 0 [alphaCand] LibType.Movies (RequestObj.movie alphaRec),
      r.fileSizeMB ≠
        (alphaCand.fileSize : ℚ) / (1024 ^ 2)
          / ((runtimeOf LibType.Movies (RequestObj.movie alphaRec) : ℚ)) := by
  rw [optimize_alpha]
  refine ⟨alphaScored.toScored, List.mem_singleton.mpr rfl, ?_⟩
  rw [show runtimeOf LibType.Movies (RequestObj.movie alphaRec) = 100 from by decide]
  show (3000 : ℚ) ≠ (3145728000 : Int) / (1024 ^ 2) / ((100 : Nat) : ℚ)
  norm_num

/-- C1 (amended): the size field the scorer computes and persists is the
raw size in megabytes — fileSize/(1024*1024), with a zero size replaced
by one byte — for every request; the runtime scaling the claim describes
lives in the size-window and category thresholds instead. -/
theorem C1_sizeField_rawMB (trackers : List (String × String)) (now : Int)
    (results : List Candidate) (t : LibType) (ro : RequestObj) :
    (optimize_results trackers now results t ro).all
      (fun r => decide (r.fileSizeMB = mbOf r.fileSize)) = true := by
  simp only [List.all_eq_true, decide_eq_true_eq]
  intro r hr
  obtain ⟨c, hc, rfl⟩ := mem_optimize _ _ _ _ _ hr
  rw [scoreOne_fileSize, scoreOne_fileSizeMB]

/-- C10: the `--external` argument is parsed but never used: two `main`
invocations differing only in `external` plan the same `run_for_library`
calls and produce the same published store and exit code against every
environment. -/
theorem C10_external_unused (args : Args) (x : Option String)
    (step : LibRun → List Scored → Except String (List Scored))
    (initialStore : List Scored) :
    mainRuns { args with external := x } = mainRuns args
    ∧ mainResult step initialStore { args with external := x } =
        mainResult step initialStore args := by
  cases args
  exact ⟨rfl, rfl⟩

/-! ## Lemmas about the store file write -/

theorem strTake_zero (s : String) : strTake s 0 = "" := rfl

theorem strTake_length (s : String) (n : Nat) :
    (strTake s n).length = min n s.length := by
  simp only [strTake, String.length]
  exact List.length_take n s.toList

theorem strTake_take (s : String) (n : Nat) :
    strTake s ((strTake s n).length) = strTake s n := by
  rw [strTake_length]
  rcases Nat.le_total n s.length with h | h
  · rw [Nat.min_eq_left h]
  · rw [Nat.min_eq_right h]
    simp only [strTake]
    have hl : s.toList.length ≤ n := h
    rw [List.take_of_length_le hl]
    show String.mk (s.toList.take s.toList.length) = ⟨s.toList⟩
    rw [List.take_length]

theorem dumpStore_length (rs : List Scored) : 0 < (dumpStore rs).length := by
  rw [dumpStore, String.length_append, String.length_append]
  have h1 : ("[" : String).length = 1 := rfl
  omega

/-- C2 (amended): the store write is in place (open with mode "w"
truncates, then the document is streamed): the visible file states are
the previous document and every prefix of the new one — the empty
(just-truncated) state always among them, while both complete documents
are nonempty — so a failure mid-write can leave a truncated or partial
store rather than the previous state. -/
theorem C2_inPlace_write (existing results : List Scored) (now d : Int) :
    "" ∈ publishCrashStates existing results now d
    ∧ 0 < (dumpStore existing).length
    ∧ 0 < (dumpStore (publish_results existing results now d)).length
    ∧ (publishCrashStates existing results now d).all
        (fun s => (s == dumpStore existing)
          || (strTake (dumpStore (publish_results existing results now d)) s.length == s))
        = true := by
  refine ⟨?_, dumpStore_length _, dumpStore_length _, ?_⟩
  · simp only [publishCrashStates, save_json_states]
    refine List.mem_cons_of_mem _ (List.mem_map.mpr ⟨0, ?_, strTake_zero _⟩)
    exact List.mem_range.mpr (Nat.succ_pos _)
  · simp only [publishCrashStates, save_json_states, List.all_cons, List.all_eq_true,
      Bool.and_eq_true, Bool.or_eq_true, beq_self_eq_true, true_or, true_and]
    intro s hs
    obtain ⟨i, _, rfl⟩ := List.mem_map.mp hs
    right
    rw [strTake_take]
    exact beq_self_eq_true _

/-- C2 counterexample: publishing over a store of one stale record, the
file passes through the truncated empty state, which is neither the
complete previous store nor the complete new store. -/
theorem C2_counterexample :
    ∃ s ∈ publishCrashStates [mkRec "a" (some 0)] [] 10 0,
      s ≠ dumpStore [mkRec "a" (some 0)]
        ∧ s ≠ dumpStore (publish_results [mkRec "a" (some 0)] [] 10 0) := by
  decide

/-! ## Lemmas about the publish dict -/

theorem mem_ins {y r : Scored} {m : List Scored} (h : y ∈ ins m r) :
    y ∈ m ∨ y = r := by
  unfold ins at h
  split at h
  · obtain ⟨x, hx, hxy⟩ := List.mem_map.mp h
    by_cases hk : x.descrLink = r.descrLink
    · right
      rw [if_pos hk] at hxy
      exact hxy.symm
    · left
      rw [if_neg hk] at hxy
      exact hxy ▸ hx
  · rcases List.mem_append.mp h with h | h
    · exact Or.inl h
    · exact Or.inr (List.mem_singleton.mp h)

theorem mem_foldl_ins {y : Scored} :
    ∀ {X : List Scored} {m : List Scored}, y ∈ X.foldl ins m → y ∈ m ∨ y ∈ X := by
  intro X
  induction X with
  | nil => intro m h; exact Or.inl h
  | cons x xs ih =>
    intro m h
    rcases ih (m := ins m x) h with h' | h'
    · rcases mem_ins h' with h'' | h''
      · exact Or.inl h''
      · exact Or.inr (h'' ▸ List.mem_cons_self x xs)
    · exact Or.inr (List.mem_cons_of_mem x h')

theorem keys_ins_super {k : String} {m : List Scored} (r : Scored)
    (h : k ∈ keys m) : k ∈ keys (ins m r) := by
  unfold ins
  split
  · obtain ⟨x, hx, rfl⟩ := List.mem_map.mp h
    by_cases hk : x.descrLink = r.descrLink
    · refine List.mem_map.mpr ⟨r, List.mem_map.mpr ⟨x, hx, ?_⟩, hk.symm⟩
      rw [if_pos hk]
    · refine List.mem_map.mpr ⟨x, List.mem_map.mpr ⟨x, hx, ?_⟩, rfl⟩
      rw [if_neg hk]
  · exact List.mem_map.mpr (by
      obtain ⟨x, hx, rfl⟩ := List.mem_map.mp h
      exact ⟨x, List.mem_append_left _ hx, rfl⟩)

theorem keys_ins_self (m : List Scored) (r : Scored) :
    r.descrLink ∈ keys (ins m r) := by
  unfold ins
  split
  · next hc =>
    obtain ⟨x, hx, hpx⟩ := List.any_eq_true.mp hc
    refine List.mem_map.mpr ⟨r, List.mem_map.mpr ⟨x, hx, ?_⟩, rfl⟩
    rw [if_pos (of_decide_eq_true hpx)]
  · exact List.mem_map.mpr ⟨r, List.mem_append_right _ (List.mem_singleton.mpr rfl), rfl⟩

theorem keys_foldl_super {k : String} :
    ∀ {X m : List Scored}, k ∈ keys m → k ∈ keys (X.foldl ins m) := by
  intro X
  induction X with
  | nil => intro m h; exact h
  | cons x xs ih => intro m h; exact ih (keys_ins_super x h)

theorem keys_foldl_of_mem {y : Scored} :
    ∀ {X m : List Scored}, y ∈ X → y.descrLink ∈ keys (X.foldl ins m) := by
  intro X
  induction X with
  | nil => intro m h; cases h
  | cons x xs ih =>
    intro m h
    rw [List.foldl_cons]
    rcases List.mem_cons.mp h with rfl | h'
    · exact keys_foldl_super (keys_ins_self m y)
    · exact ih h'

/-- C3 (amended): existing records are kept exactly when their effective
last-added time is at or after the cutoff now − d days, and — provided
every new result carries an effective last-added time at or after the
cutoff, as the scorer guarantees by stamping the current time — every
record in the published store satisfies the retention bound.  (The
overlay itself performs no timestamp check, so the bound on new results
is a genuine hypothesis.) -/
theorem C3_retention (existing results : List Scored) (now d : Int)
    (h : ∀ r ∈ results, subtract_days now d ≤ effLastAdded now r) :
    (∀ r ∈ publish_results existing results now d,
        subtract_days now d ≤ effLastAdded now r)
    ∧ (∀ r ∈ existing, subtract_days now d ≤ effLastAdded now r →
        r.descrLink ∈ keys (publish_results existing results now d)) := by
  constructor
  · intro r hr
    unfold publish_results at hr
    rcases mem_foldl_ins hr with h' | h'
    · rcases mem_foldl_ins h' with h'' | h''
      · cases h''
      · exact of_decide_eq_true (List.mem_filter.mp h'').2
    · exact h r h'
  · intro r hr hpass
    unfold publish_results
    refine keys_foldl_super (keys_foldl_of_mem ?_)
    exact List.mem_filter.mpr ⟨hr, decide_eq_true hpass⟩

/-- C3 witness: the retention bound applied at a concrete store, result
list and window. -/
theorem C3_retention_witness :
    (∀ r ∈ publish_results [mkRec "a" (some 950000)] [mkRec "b" (some 864000)] 950400 1,
        subtract_days 950400 1 ≤ effLastAdded 950400 r)
    ∧ (∀ r ∈ [mkRec "a" (some 950000)],
        subtract_days 950400 1 ≤ effLastAdded 950400 r →
          r.descrLink ∈ keys (publish_results [mkRec "a" (some 950000)]
            [mkRec "b" (some 864000)] 950400 1)) :=
  C3_retention [mkRec "a" (some 950000)] [mkRec "b" (some 864000)] 950400 1 (by decide)

/-- C3 counterexample: `publish_results` overlays new results without a
timestamp check, so with cutoff 777600 a new record stamped 0 appears in
the output — the claim's bound fails over arbitrary new-result lists. -/
theorem C3_counterexample :
    ∃ r ∈ publish_results [] [mkRec "k" (some 0)] 864000 1,
      effLastAdded 864000 r < subtract_days 864000 1 := by
  decide

/-! ## Lemmas for seed-ratio monotonicity -/

theorem scoreOne_seeds10_eq (trackers : List (String × String)) (now : Int)
    (t : LibType) (rt maxS : Nat) (c : Candidate) :
    (scoreOne trackers now t rt maxS c).seeds10 =
      decide ((c.nbSeeders : ℚ) ≥ (1 / 10) * (maxS : ℚ)) := rfl

theorem scoreOne_seeds50_eq (trackers : List (String × String)) (now : Int)
    (t : LibType) (rt maxS : Nat) (c : Candidate) :
    (scoreOne trackers now t rt maxS c).seeds50 =
      decide ((c.nbSeeders : ℚ) ≥ (1 / 2) * (maxS : ℚ)) := rfl

theorem scoreOne_score_eq (trackers : List (String × String)) (now : Int)
    (t : LibType) (rt maxS : Nat) (c : Candidate) :
    (scoreOne trackers now t rt maxS c).toScored.score =
      (if (scoreOne trackers now t rt maxS c).seeds10 then (weightsOf t).seeds10 else 0)
      + (if (scoreOne trackers now t rt maxS c).sizeBest then (weightsOf t).sizeBest else 0)
      + (if (scoreOne trackers now t rt maxS c).favorite then (weightsOf t).favorite else 0)
      + (if (scoreOne trackers now t rt maxS c).seeds50 then (weightsOf t).seeds50 else 0)
      + (if (scoreOne trackers now t rt maxS c).quality then (weightsOf t).quality else 0) := rfl

theorem scoreOne_quality_nb (trackers : List (String × String)) (now : Int)
    (t : LibType) (rt m1 m2 : Nat) (c : Candidate) (n : Nat) :
    (scoreOne trackers now t rt m1 { c with nbSeeders := n }).quality =
      (scoreOne trackers now t rt m2 c).quality := rfl

theorem scoreOne_favorite_nb (trackers : List (String × String)) (now : Int)
    (t : LibType) (rt m1 m2 : Nat) (c : Candidate) (n : Nat) :
    (scoreOne trackers now t rt m1 { c with nbSeeders := n }).favorite =
      (scoreOne trackers now t rt m2 c).favorite := rfl

theorem scoreOne_sizeBest_nb (trackers : List (String × String)) (now : Int)
    (t : LibType) (rt m1 m2 : Nat) (c : Candidate) (n : Nat) :
    (scoreOne trackers now t rt m1 { c with nbSeeders := n }).sizeBest =
      (scoreOne trackers now t rt m2 c).sizeBest := rfl

theorem foldMax_init (l : List Candidate) (a : Nat) :
    l.foldl (fun x r => max x r.nbSeeders) a =
      max a (l.foldl (fun x r => max x r.nbSeeders) 0) := by
  induction l generalizing a with
  | nil => simp
  | cons x xs ih =>
    rw [List.foldl_cons, List.foldl_cons, ih (max a x.nbSeeders), ih (max 0 x.nbSeeders)]
    omega

theorem foldMax_middle (pre post : List Candidate) (c : Candidate) :
    (pre ++ c :: post).foldl (fun x r => max x r.nbSeeders) 0 =
      max c.nbSeeders ((pre ++ post).foldl (fun x r => max x r.nbSeeders) 0) := by
  rw [List.foldl_append, List.foldl_append, List.foldl_cons,
    foldMax_init post (max (pre.foldl (fun x r => max x r.nbSeeders) 0) c.nbSeeders),
    foldMax_init post (pre.foldl (fun x r => max x r.nbSeeders) 0)]
  omega

theorem maxSeeders_middle (pre post : List Candidate) (c : Candidate) :
    maxSeeders (pre ++ c :: post) =
      (if max c.nbSeeders ((pre ++ post).foldl (fun x r => max x r.nbSeeders) 0) = 0
        then 1
        else max c.nbSeeders ((pre ++ post).foldl (fun x r => max x r.nbSeeders) 0)) := by
  unfold maxSeeders
  rw [foldMax_middle]

theorem seedRel_mono (q : ℚ) (hq1 : q ≤ 1) (mo : Nat) {nb nb' : Nat}
    (hle : nb ≤ nb')
    (h : (nb : ℚ) ≥ q * (((if max nb mo = 0 then 1 else max nb mo) : Nat) : ℚ)) :
    (nb' : ℚ) ≥ q * (((if max nb' mo = 0 then 1 else max nb' mo) : Nat) : ℚ) := by
  rcases Nat.le_total nb' mo with hc | hc
  · have h1 : max nb mo = mo := Nat.max_eq_right (le_trans hle hc)
    have h2 : max nb' mo = mo := Nat.max_eq_right hc
    rw [h1] at h
    rw [h2]
    exact le_trans h (by exact_mod_cast hle)
  · have h2 : max nb' mo = nb' := Nat.max_eq_left hc
    rw [h2]
    by_cases hz : nb' = 0
    · subst hz
      have hnb : nb = 0 := Nat.le_zero.mp hle
      have hmo : mo = 0 := Nat.le_zero.mp hc
      subst hnb
      subst hmo
      simpa using h
    · rw [if_neg hz]
      have hpos : (0 : ℚ) ≤ (nb' : ℚ) := by positivity
      calc q * (nb' : ℚ) ≤ 1 * (nb' : ℚ) := mul_le_mul_of_nonneg_right hq1 hpos
        _ = (nb' : ℚ) := one_mul _

theorem ite_weight_mono {a b : Bool} (h : a = true → b = true) (w : Nat) :
    (if a then w else 0) ≤ (if b then w else 0) := by
  cases a with
  | false => exact Nat.zero_le _
  | true => rw [if_pos rfl, if_pos (h rfl)]

/-- C8: raising one candidate's seed count while holding everything else
fixed — the request's maximum seed count recomputed from the changed set
— never lowers its seeds_10 (highSeedRatio) or seeds_50 (midSeedRatio)
flag and never lowers its score. -/
theorem C8_seedMonotone (trackers : List (String × String)) (now : Int)
    (t : LibType) (runtime : Nat) (pre post : List Candidate) (c : Candidate)
    (n : Nat) (h : c.nbSeeders ≤ n) :
    (scoreOne trackers now t runtime (maxSeeders (pre ++ c :: post)) c).seeds10
      ≤ (scoreOne trackers now t runtime
          (maxSeeders (pre ++ { c with nbSeeders := n } :: post))
          { c with nbSeeders := n }).seeds10
    ∧ (scoreOne trackers now t runtime (maxSeeders (pre ++ c :: post)) c).seeds50
      ≤ (scoreOne trackers now t runtime
          (maxSeeders (pre ++ { c with nbSeeders := n } :: post))
          { c with nbSeeders := n }).seeds50
    ∧ (scoreOne trackers now t runtime (maxSeeders (pre ++ c :: post)) c).toScored.score
      ≤ (scoreOne trackers now t runtime
          (maxSeeders (pre ++ { c with nbSeeders := n } :: post))
          { c with nbSeeders := n }).toScored.score := by
  have h10 : (scoreOne trackers now t runtime (maxSeeders (pre ++ c :: post)) c).seeds10 = true →
      (scoreOne trackers now t runtime (maxSeeders (pre ++ { c with nbSeeders := n } :: post))
        { c with nbSeeders := n }).seeds10 = true := by
    rw [scoreOne_seeds10_eq, scoreOne_seeds10_eq, maxSeeders_middle, maxSeeders_middle]
    intro hold
    exact decide_eq_true
      (seedRel_mono (1 / 10) (by norm_num) _ h (of_decide_eq_true hold))
  have h50 : (scoreOne trackers now t runtime (maxSeeders (pre ++ c :: post)) c).seeds50 = true →
      (scoreOne trackers now t runtime (maxSeeders (pre ++ { c with nbSeeders := n } :: post))
        { c with nbSeeders := n }).seeds50 = true := by
    rw [scoreOne_seeds50_eq, scoreOne_seeds50_eq, maxSeeders_middle, maxSeeders_middle]
    intro hold
    exact decide_eq_true
      (seedRel_mono (1 / 2) (by norm_num) _ h (of_decide_eq_true hold))
  refine ⟨Bool.le_iff_imp.mpr h10, Bool.le_iff_imp.mpr h50, ?_⟩
  rw [scoreOne_score_eq, scoreOne_score_eq,
    scoreOne_quality_nb trackers now t runtime _ (maxSeeders (pre ++ c :: post)) c n,
    scoreOne_favorite_nb trackers now t runtime _ (maxSeeders (pre ++ c :: post)) c n,
    scoreOne_sizeBest_nb trackers now t runtime _ (maxSeeders (pre ++ c :: post)) c n]
  exact Nat.add_le_add (Nat.add_le_add (Nat.add_le_add (Nat.add_le_add
    (ite_weight_mono h10 _) (Nat.le_refl _)) (Nat.le_refl _))
    (ite_weight_mono h50 _)) (Nat.le_refl _)

/-- C8 witness: the monotonicity theorem applied at a concrete request
set (one candidate, seeds raised from 50 to 60). -/
theorem C8_seedMonotone_witness :
    (scoreOne [] 0 LibType.Movies 100 (maxSeeders ([] ++ alphaCand :: [])) alphaCand).seeds10
      ≤ (scoreOne [] 0 LibType.Movies 100
          (maxSeeders ([] ++ { alphaCand with nbSeeders := 60 } :: []))
          { alphaCand with nbSeeders := 60 }).seeds10
    ∧ (scoreOne [] 0 LibType.Movies 100 (maxSeeders ([] ++ alphaCand :: [])) alphaCand).seeds50
      ≤ (scoreOne [] 0 LibType.Movies 100
          (maxSeeders ([] ++ { alphaCand with nbSeeders := 60 } :: []))
          { alphaCand with nbSeeders := 60 }).seeds50
    ∧ (scoreOne [] 0 LibType.Movies 100
          (maxSeeders ([] ++ alphaCand :: [])) alphaCand).toScored.score
      ≤ (scoreOne [] 0 LibType.Movies 100
          (maxSeeders ([] ++ { alphaCand with nbSeeders := 60 } :: []))
          { alphaCand with nbSeeders := 60 }).toScored.score :=
  C8_seedMonotone [] 0 LibType.Movies 100 [] [] alphaCand 60 (by decide)

/-! ## The dict laws behind the publish merge -/

theorem any_key_iff (m : List Scored) (k : String) :
    (m.any (fun x => decide (x.descrLink = k)) = true) ↔ k ∈ keys m := by
  rw [List.any_eq_true]
  constructor
  · rintro ⟨x, hx, hk⟩
    exact List.mem_map.mpr ⟨x, hx, of_decide_eq_true hk⟩
  · rintro h
    obtain ⟨x, hx, rfl⟩ := List.mem_map.mp h
    exact ⟨x, hx, decide_eq_true rfl⟩

theorem keys_ins_mem {m : List Scored} {r : Scored} (h : r.descrLink ∈ keys m) :
    keys (ins m r) = keys m := by
  unfold ins
  rw [if_pos ((any_key_iff m r.descrLink).mpr h)]
  unfold keys
  rw [List.map_map]
  refine List.map_congr_left ?_
  intro x _
  simp only [Function.comp_apply]
  by_cases hx : x.descrLink = r.descrLink
  · rw [if_pos hx, hx]
  · rw [if_neg hx]

theorem keys_ins_notMem {m : List Scored} {r : Scored} (h : r.descrLink ∉ keys m) :
    keys (ins m r) = keys m ++ [r.descrLink] := by
  unfold ins
  rw [if_neg (fun hc => h ((any_key_iff m r.descrLink).mp hc))]
  unfold keys
  rw [List.map_append]
  rfl

theorem keys_ins_eq (m : List Scored) (r : Scored) :
    keys (ins m r) = insKey (keys m) r.descrLink := by
  unfold insKey
  by_cases h : r.descrLink ∈ keys m
  · rw [if_pos h, keys_ins_mem h]
  · rw [if_neg h, keys_ins_notMem h]

theorem findKey_eq_none {k : String} {m : List Scored} (h : k ∉ keys m) :
    findKey k m = none := by
  refine List.find?_eq_none.mpr ?_
  intro x hx
  intro hc
  exact h (List.mem_map.mpr ⟨x, hx, of_decide_eq_true hc⟩)

theorem findKey_cons_pos {k : String} {x : Scored} {m : List Scored}
    (h : x.descrLink = k) : findKey k (x :: m) = some x := by
  unfold findKey
  rw [List.find?_cons, decide_eq_true h]

theorem findKey_cons_neg {k : String} {x : Scored} {m : List Scored}
    (h : ¬ x.descrLink = k) : findKey k (x :: m) = findKey k m := by
  unfold findKey
  rw [List.find?_cons, decide_eq_false h]

theorem findKey_mapRepl (r : Scored) (k : String) :
    ∀ m : List Scored,
      findKey k (m.map (fun x => if x.descrLink = r.descrLink then r else x)) =
        if r.descrLink = k then (findKey k m).map (fun _ => r) else findKey k m := by
  intro m
  induction m with
  | nil =>
    by_cases h : r.descrLink = k
    · simp [findKey, h]
    · simp [findKey, h]
  | cons x m ih =>
    rw [List.map_cons]
    by_cases hx : x.descrLink = r.descrLink
    · rw [if_pos hx]
      by_cases hk : r.descrLink = k
      · rw [if_pos hk, findKey_cons_pos hk, findKey_cons_pos (hx.trans hk)]
        rfl
      · rw [if_neg hk, findKey_cons_neg hk, findKey_cons_neg (fun hc => hk (hx ▸ hc)), ih,
          if_neg hk]
    · rw [if_neg hx]
      by_cases hxk : x.descrLink = k
      · rw [findKey_cons_pos hxk, findKey_cons_pos hxk]
        rw [if_neg (fun hc : r.descrLink = k => hx (hxk.trans hc.symm))]
      · rw [findKey_cons_neg hxk, findKey_cons_neg hxk, ih]

theorem findKey_ins (m : List Scored) (r : Scored) (k : String) :
    findKey k (ins m r) = if r.descrLink = k then some r else findKey k m := by
  unfold ins
  by_cases hmem : r.descrLink ∈ keys m
  · rw [if_pos ((any_key_iff m r.descrLink).mpr hmem), findKey_mapRepl]
    by_cases hk : r.descrLink = k
    · rw [if_pos hk, if_pos hk]
      obtain ⟨x, hx, hxk⟩ := List.mem_map.mp hmem
      have : findKey k m ≠ none := by
        intro hc
        have := List.find?_eq_none.mp hc x hx
        exact this (decide_eq_true (hk ▸ hxk))
      obtain ⟨v, hv⟩ := Option.ne_none_iff_exists'.mp this
      rw [hv]
      rfl
    · rw [if_neg hk, if_neg hk]
  · rw [if_neg (fun hc => hmem ((any_key_iff m r.descrLink).mp hc))]
    unfold findKey
    rw [List.find?_append]
    by_cases hk : r.descrLink = k
    · rw [if_pos hk]
      have h1 : List.find? (fun x => decide (x.descrLink = k)) m = none :=
        findKey_eq_none (fun hc => hmem (hk ▸ hc))
      rw [h1]
      simp [hk]
    · rw [if_neg hk]
      have h2 : List.find? (fun x => decide (x.descrLink = k)) [r] = none := by
        simp [hk]
      rw [h2, Option.or_none]

theorem nodupKeys_ins {m : List Scored} (r : Scored) (h : nodupKeys m) :
    nodupKeys (ins m r) := by
  unfold nodupKeys
  by_cases hmem : r.descrLink ∈ keys m
  · rw [keys_ins_mem hmem]
    exact h
  · rw [keys_ins_notMem hmem]
    refine List.Nodup.append h (List.nodup_singleton _) ?_
    intro a ha hc
    rw [List.mem_singleton] at hc
    exact hmem (hc ▸ ha)

theorem nodupKeys_foldl {X : List Scored} :
    ∀ {m : List Scored}, nodupKeys m → nodupKeys (X.foldl ins m) := by
  induction X with
  | nil => intro m h; exact h
  | cons x xs ih =>
    intro m h
    rw [List.foldl_cons]
    exact ih (nodupKeys_ins x h)

theorem dict_ext : ∀ {l1 l2 : List Scored}, nodupKeys l1 → nodupKeys l2 →
    keys l1 = keys l2 → (∀ k, findKey k l1 = findKey k l2) → l1 = l2 := by
  intro l1
  induction l1 with
  | nil =>
    intro l2 _ _ hk _
    cases l2 with
    | nil => rfl
    | cons b t2 => exact absurd hk (by simp [keys])
  | cons a t1 ih =>
    intro l2 h1 h2 hk hf
    cases l2 with
    | nil => exact absurd hk (by simp [keys])
    | cons b t2 =>
      have hkeys : a.descrLink = b.descrLink ∧ keys t1 = keys t2 := by
        have : a.descrLink :: keys t1 = b.descrLink :: keys t2 := hk
        exact ⟨List.head_eq_of_cons_eq this, List.tail_eq_of_cons_eq this⟩
      have hab : a = b := by
        have hfa := hf a.descrLink
        rw [findKey_cons_pos rfl, findKey_cons_pos hkeys.1.symm] at hfa
        exact Option.some.inj hfa
      have ht : t1 = t2 := by
        refine ih (List.Nodup.of_cons h1) (List.Nodup.of_cons h2) hkeys.2 ?_
        intro k
        by_cases hk0 : a.descrLink = k
        · have hn1 : k ∉ keys t1 := by
            intro hc
            refine (List.nodup_cons.mp h1).1 ?_
            show a.descrLink ∈ keys t1
            rw [hk0]
            exact hc
          have hn2 : k ∉ keys t2 := by
            intro hc
            refine (List.nodup_cons.mp h2).1 ?_
            show b.descrLink ∈ keys t2
            rw [hkeys.1.symm.trans hk0]
            exact hc
          rw [findKey_eq_none hn1, findKey_eq_none hn2]
        · have hfk := hf k
          rw [findKey_cons_neg hk0, findKey_cons_neg (fun hc => hk0 (hkeys.1.trans hc))] at hfk
          exact hfk
      rw [hab, ht]

theorem keys_foldl_eq {X : List Scored} :
    ∀ {m : List Scored}, keys (X.foldl ins m) = keyFold (keys m) (keys X) := by
  induction X with
  | nil => intro m; rfl
  | cons x xs ih =>
    intro m
    rw [List.foldl_cons]
    show keys (xs.foldl ins (ins m x)) = keyFold (keys m) (x.descrLink :: keys xs)
    rw [ih]
    unfold keyFold
    rw [List.foldl_cons, keys_ins_eq]

theorem findKey_foldl_eq {k : String} {X : List Scored} :
    ∀ {m : List Scored}, findKey k (X.foldl ins m) = writeFold k X (findKey k m) := by
  induction X with
  | nil => intro m; rfl
  | cons x xs ih =>
    intro m
    rw [List.foldl_cons]
    show findKey k (xs.foldl ins (ins m x)) = writeFold k (x :: xs) (findKey k m)
    rw [ih]
    unfold writeFold
    rw [List.foldl_cons, findKey_ins]

theorem mem_keyFold_left {k : String} {xs : List String} :
    ∀ {A : List String}, k ∈ A → k ∈ keyFold A xs := by
  induction xs with
  | nil => intro A h; exact h
  | cons x xs ih =>
    intro A h
    unfold keyFold
    rw [List.foldl_cons]
    refine ih ?_
    unfold insKey
    split
    · exact h
    · exact List.mem_append_left _ h

theorem mem_insKey_self (A : List String) (k : String) : k ∈ insKey A k := by
  unfold insKey
  split
  · assumption
  · exact List.mem_append_right _ (List.mem_singleton.mpr rfl)

theorem mem_keyFold_right {k : String} : ∀ {B : List String} {A : List String},
    k ∈ B → k ∈ keyFold A B := by
  intro B
  induction B with
  | nil => intro A h; cases h
  | cons b B ih =>
    intro A h
    unfold keyFold
    rw [List.foldl_cons]
    rcases List.mem_cons.mp h with rfl | h'
    · exact mem_keyFold_left (mem_insKey_self A k)
    · exact ih h'

theorem keyFold_insKey (A B : List String) (x : String) :
    keyFold A (insKey B x) = insKey (keyFold A B) x := by
  unfold insKey
  by_cases hx : x ∈ B
  · rw [if_pos hx, if_pos (mem_keyFold_right hx)]
  · rw [if_neg hx]
    unfold keyFold
    rw [List.foldl_append]
    rfl

theorem keyFold_assoc (xs : List String) :
    ∀ A B : List String, keyFold A (keyFold B xs) = keyFold (keyFold A B) xs := by
  induction xs with
  | nil => intro A B; rfl
  | cons x xs ih =>
    intro A B
    show keyFold A (keyFold (insKey B x) xs) = keyFold (insKey (keyFold A B) x) xs
    rw [ih A (insKey B x), keyFold_insKey]

theorem writeFold_acc (k : String) (X : List Scored) :
    ∀ a : Option Scored, writeFold k X a = (writeFold k X none).or a := by
  induction X with
  | nil => intro a; rfl
  | cons x xs ih =>
    intro a
    show writeFold k xs (if x.descrLink = k then some x else a) =
      (writeFold k xs (if x.descrLink = k then some x else none)).or a
    by_cases hx : x.descrLink = k
    · rw [if_pos hx, if_pos hx, ih (some x)]
      rw [Option.or_assoc]
      rfl
    · rw [if_neg hx, if_neg hx, ih a, ih none, Option.or_none]

theorem writeFold_of_nodup {k : String} : ∀ {M : List Scored},
    nodupKeys M → ∀ acc, writeFold k M acc = (findKey k M).or acc := by
  intro M
  induction M with
  | nil => intro _ acc; rfl
  | cons x M ih =>
    intro h acc
    have hx := List.nodup_cons.mp h
    show writeFold k M (if x.descrLink = k then some x else acc) = (findKey k (x :: M)).or acc
    by_cases hk : x.descrLink = k
    · rw [if_pos hk, findKey_cons_pos hk, ih hx.2 (some x),
        findKey_eq_none (fun hc => hx.1 (show x.descrLink ∈ keys M by rw [hk]; exact hc))]
      rfl
    · rw [if_neg hk, findKey_cons_neg hk, ih hx.2 acc]

theorem foldl_ins_append_of_nodup : ∀ (l m : List Scored), nodupKeys (m ++ l) →
    l.foldl ins m = m ++ l := by
  intro l
  induction l with
  | nil => intro m _; simp
  | cons a l ih =>
    intro m h
    have hkeys : (keys m ++ a.descrLink :: keys l).Nodup := by
      have : keys (m ++ a :: l) = keys m ++ a.descrLink :: keys l := by
        unfold keys
        rw [List.map_append]
        rfl
      exact this ▸ h
    have hnotin : a.descrLink ∉ keys m := by
      intro hc
      have := (List.nodup_append.mp hkeys).2.2
      exact this hc (List.mem_cons_self _ _)
    rw [List.foldl_cons]
    have hins : ins m a = m ++ [a] := by
      unfold ins
      rw [if_neg (fun hc => hnotin ((any_key_iff m a.descrLink).mp hc))]
    rw [hins, ih (m ++ [a]) (by simpa using h), List.append_assoc]
    rfl

theorem refold_of_nodup {l : List Scored} (h : nodupKeys l) : l.foldl ins [] = l :=
  foldl_ins_append_of_nodup l [] h

theorem keys_append (X Y : List Scored) : keys (X ++ Y) = keys X ++ keys Y :=
  List.map_append _ _ _

theorem keyFold_append (K X Y : List String) :
    keyFold K (X ++ Y) = keyFold (keyFold K X) Y := by
  unfold keyFold
  rw [List.foldl_append]

theorem writeFold_append (k : String) (X Y : List Scored) (acc : Option Scored) :
    writeFold k (X ++ Y) acc = writeFold k Y (writeFold k X acc) := by
  unfold writeFold
  rw [List.foldl_append]

theorem fold_fold_merge (B R1 R2 : List Scored) (hB : nodupKeys B) :
    R2.foldl ins (R1.foldl ins B) = ((R1 ++ R2).foldl ins []).foldl ins B := by
  have hnil : nodupKeys ([] : List Scored) := List.nodup_nil
  refine dict_ext (nodupKeys_foldl (nodupKeys_foldl hB)) (nodupKeys_foldl hB) ?_ ?_
  · rw [keys_foldl_eq, keys_foldl_eq, keys_foldl_eq, keys_foldl_eq, keys_append,
      ← keyFold_append, keyFold_assoc]
    rfl
  · intro k
    rw [findKey_foldl_eq, findKey_foldl_eq, findKey_foldl_eq,
      writeFold_of_nodup (nodupKeys_foldl hnil) (findKey k B), findKey_foldl_eq]
    show writeFold k R2 (writeFold k R1 (findKey k B)) =
      (writeFold k (R1 ++ R2) none).or (findKey k B)
    rw [writeFold_append,
      writeFold_acc k R2 (writeFold k R1 (findKey k B)),
      writeFold_acc k R2 (writeFold k R1 none),
      writeFold_acc k R1 (findKey k B),
      Option.or_assoc]

/-- C4 (amended): publishing R1 and then R2 equals publishing the
last-write-wins merge of R1 and R2 keyed by descrLink, provided every
record of R1 carries an effective last-added time at or after the cutoff
(as holds when results are stamped at the shared instant): otherwise the
second publish's retention pass can evict an R1 record that the merged
publish would keep. -/
theorem C4_publishMerge (S R1 R2 : List Scored) (now d : Int)
    (h : ∀ r ∈ R1, subtract_days now d ≤ effLastAdded now r) :
    publish_results (publish_results S R1 now d) R2 now d =
      publish_results S (mergeLWW R1 R2) now d := by
  have hBnd : nodupKeys
      ((S.filter (fun it => decide (subtract_days now d ≤ effLastAdded now it))).foldl
        ins []) := nodupKeys_foldl List.nodup_nil
  have hS1nd : nodupKeys (publish_results S R1 now d) := nodupKeys_foldl hBnd
  have hfilter :
      (publish_results S R1 now d).filter
        (fun it => decide (subtract_days now d ≤ effLastAdded now it)) =
      publish_results S R1 now d := by
    refine List.filter_eq_self.mpr ?_
    intro r hr
    rcases mem_foldl_ins hr with h' | h'
    · rcases mem_foldl_ins h' with h'' | h''
      · cases h''
      · exact (List.mem_filter.mp h'').2
    · exact decide_eq_true (h r h')
  show (R2.foldl ins
      (((publish_results S R1 now d).filter
        (fun it => decide (subtract_days now d ≤ effLastAdded now it))).foldl ins [])) =
    (mergeLWW R1 R2).foldl ins
      ((S.filter (fun it => decide (subtract_days now d ≤ effLastAdded now it))).foldl ins [])
  rw [hfilter, refold_of_nodup hS1nd]
  exact fold_fold_merge _ R1 R2 hBnd

/-- C4 witness: the merge law applied at a concrete store and two
concrete result lists sharing a key. -/
theorem C4_publishMerge_witness :
    publish_results (publish_results [mkRec "a" (some 5)] [mkRec "b" (some 6)] 10 1)
        [mkRec "a" (some 7)] 10 1 =
      publish_results [mkRec "a" (some 5)]
        (mergeLWW [mkRec "b" (some 6)] [mkRec "a" (some 7)]) 10 1 :=
  C4_publishMerge [mkRec "a" (some 5)] [mkRec "b" (some 6)] [mkRec "a" (some 7)] 10 1
    (by decide)

/-- C4 counterexample: with a stale R1 record (lastAdded 0, cutoff
777600) and R2 empty, sequential publishing evicts the record in the
second pass while publishing the merge keeps it, so the claim fails as
stated. -/
theorem C4_counterexample :
    publish_results (publish_results [] [mkRec "k" (some 0)] 864000 1) [] 864000 1 ≠
      publish_results [] (mergeLWW [mkRec "k" (some 0)] []) 864000 1 := by
  decide

end Georznab
